import Mathlib

set_option maxRecDepth 10000

/-!
Verification of the engine resolution and version-aggregation core of the
`prisma version` CLI command (source: `packages/cli/src/Version.ts`).

The stateful collaborators of the command (process environment, filesystem
existence checks, the external default binary resolver, the version probe of
a binary, `path.relative` against the current working directory, and the
schema/config loaders) are modelled as explicit parameters gathered in
context structures.  Fallible collaborators return `Except String`;
thrown-and-propagated exceptions of the TypeScript code become `Except.error`
values threaded through the assembly.
-/

/-- Logical engine roles (`BinaryType` in the source, imported as
`EngineType`). -/
inductive EngineType where
  | queryEngine
  | libqueryEngine
  | migrationEngine
  | introspectionEngine
  | prismaFmt
deriving DecidableEq, Repr

/-- Result of resolving one engine (interface `EngineInfo` in the source):
the resolved filesystem path, the probed version string, and the name of the
environment variable responsible when the path came from an override. -/
structure EngineInfo where
  path : String
  version : String
  fromEnvVar : Option String
deriving DecidableEq, Repr

/-- One `generator` block of a parsed configuration, reduced to the field the
command reads: its declared preview-feature names. -/
structure Generator where
  previewFeatures : List String
deriving DecidableEq, Repr

/-- A parsed configuration (result of the external `getConfig` collaborator):
an ordered list of generator declarations. -/
structure Config where
  generators : List Generator
deriving DecidableEq, Repr

/-- Collaborators used by `Version.resolveEngine`:
`env` models `process.env` (a set variable yields `some value`, an unset one
`none`); `fsExists` models `fs.existsSync`; `envVarMap` models the fixed
`engineEnvVarMap` role-to-variable table; `resolveBinary` is the external
default resolver (`resolveBinary`, imported as `resolveEngine`); `getVersion`
is the external version probe. -/
structure Ctx where
  env : String → Option String
  fsExists : String → Bool
  envVarMap : EngineType → String
  resolveBinary : EngineType → Except String String
  getVersion : String → EngineType → Except String String

/-- Collaborators and ambient values used by the row assembly of
`Version.parse`: package metadata (`packageJson`), the installed client
version (`getInstalledPrismaClientVersion`, `none` when absent), the detected
platform, the query-engine flavour chosen by `getCliQueryEngineBinaryType`,
`relative` modelling `path.relative(process.cwd(), ·)`, the nearest schema
path (`getSchemaPath`), and the schema/config loaders. -/
structure ParseCtx extends Ctx where
  pkgName : String
  pkgVersion : String
  prismaClientVersion : Option String
  platform : String
  cliQueryEngineType : EngineType
  relative : String → String
  enginesDep : String
  studioVersion : String
  schemaPath : Option String
  getSchemaR : Except String String
  getConfigR : String → Except String Config

/-- Whitespace class of the regular expression `\s` restricted to ASCII, as
matched by `replace(/\s+/g, '-')` in `slugify`. -/
def isJsWs (c : Char) : Bool :=
  c == ' ' || c == '\t' || c == '\n' || c == '\r' || c == '\x0b' || c == '\x0c'

/-- Collapse every maximal run of whitespace characters to a single `'-'`,
leaving other characters unchanged: the effect of `replace(/\s+/g, '-')`. -/
def collapseWs : List Char → List Char
  | [] => []
  | [c] => if isJsWs c then ['-'] else [c]
  | c1 :: c2 :: cs =>
    if isJsWs c1 then
      if isJsWs c2 then collapseWs (c2 :: cs)
      else '-' :: collapseWs (c2 :: cs)
    else c1 :: collapseWs (c2 :: cs)

/-- The `slugify` helper of `Version.ts`: lowercase, then collapse each run
of whitespace to a single hyphen. -/
def slugify (str : String) : String :=
  String.mk (collapseWs (str.toList.map Char.toLower))

/-- JavaScript property assignment `acc[k] = v` on a plain object modelled as
an insertion-ordered association list: an existing key keeps its position and
gets the new value, a new key is appended at the end. -/
def jsSet (acc : List (String × String)) (k v : String) : List (String × String) :=
  if acc.any (fun p => p.1 == k) then
    acc.map (fun p => if p.1 == k then (k, v) else p)
  else
    acc ++ [(k, v)]

/-- The object built by the `reduce` in the JSON branch of
`Version.printTable`: one `jsSet` per row, key slugified, value unchanged. -/
def toJsonObject (rows : List (String × String)) : List (String × String) :=
  rows.foldl (fun acc r => jsSet acc (slugify r.1) r.2) []

/-- JSON escaping of a single character as performed by `JSON.stringify` on
the ASCII range. -/
def hexDigit (n : Nat) : Char :=
  if n < 10 then Char.ofNat (n + 48) else Char.ofNat (n + 87)

/-- Four-hex-digit rendering used by `\uXXXX` escapes. -/
def hex4 (n : Nat) : String :=
  String.mk [hexDigit (n / 4096 % 16), hexDigit (n / 256 % 16),
             hexDigit (n / 16 % 16), hexDigit (n % 16)]

/-- Escape one character the way `JSON.stringify` escapes string contents. -/
def jsonEscChar (c : Char) : String :=
  if c = '"' then "\\\""
  else if c = '\\' then "\\\\"
  else if c = '\n' then "\\n"
  else if c = '\r' then "\\r"
  else if c = '\t' then "\\t"
  else if c = '\x08' then "\\b"
  else if c = '\x0c' then "\\f"
  else if c.toNat < 32 then "\\u" ++ hex4 c.toNat
  else String.singleton c

/-- Escape a whole string the way `JSON.stringify` does. -/
def jsonEscape (s : String) : String :=
  String.join (s.toList.map jsonEscChar)

/-- The serialization `JSON.stringify(result, null, 2)` of a string-valued
object kept in insertion order. -/
def jsonStringify2 (ps : List (String × String)) : String :=
  match ps with
  | [] => "\x7b\x7d"
  | _ =>
    "\x7b\n" ++
      String.intercalate ",\n"
        (ps.map (fun p => "  \"" ++ jsonEscape p.1 ++ "\": \"" ++ jsonEscape p.2 ++ "\"")) ++
      "\n\x7d"

/-- The string `s.padEnd(n)` of JavaScript: append spaces up to length `n`
(no-op when `s` is already at least that long). -/
def padEnd (s : String) (n : Nat) : String :=
  s ++ String.mk (List.replicate (n - s.length) ' ')

namespace Version

/-- Fall-through branch of `Version.resolveEngine`: obtain the default path
from the external resolver, probe it, and return the engine info untagged. -/
def resolveEngineDefault (c : Ctx) (engineName : EngineType) : Except String EngineInfo :=
  match c.resolveBinary engineName with
  | Except.error e => Except.error e
  | Except.ok enginePath =>
    match c.getVersion enginePath engineName with
    | Except.error e => Except.error e
    | Except.ok version => Except.ok { path := enginePath, version := version, fromEnvVar := none }

/-- The private method `Version.resolveEngine`: if the role's mapped
environment variable holds a truthy (non-empty) value naming an existing
path, probe and return that path tagged with the variable's name; otherwise
fall through to the default resolver. -/
def resolveEngine (c : Ctx) (engineName : EngineType) : Except String EngineInfo :=
  match c.env (c.envVarMap engineName) with
  | some pathFromEnv =>
    if pathFromEnv != "" && c.fsExists pathFromEnv then
      match c.getVersion pathFromEnv engineName with
      | Except.error e => Except.error e
      | Except.ok version =>
        Except.ok { path := pathFromEnv, version := version, fromEnvVar := some (c.envVarMap engineName) }
    else
      resolveEngineDefault c engineName
  | none => resolveEngineDefault c engineName

/-- The private method `Version.printEngineInfo`: format a resolved engine as
its version, the path made relative to the current working directory, and an
optional override suffix (the suffix is present only for a truthy
`fromEnvVar`). -/
def printEngineInfo (relative : String → String) (info : EngineInfo) : String :=
  let resolved :=
    match info.fromEnvVar with
    | some v => if v = "" then "" else ", resolved by " ++ v
    | none => ""
  info.version ++ " (at " ++ relative info.path ++ resolved ++ ")"

/-- The private method `Version.getFeatureFlags`: empty for a falsy schema
path; otherwise load the schema and its config inside a `try` whose failures
all become `[]`, and return the preview features of the first generator whose
list is non-empty (or `[]` when there is none). -/
def getFeatureFlags (schemaPath : Option String) (getSchemaR : Except String String)
    (getConfigR : String → Except String Config) : List String :=
  match schemaPath with
  | none => []
  | some sp =>
    if sp = "" then []
    else
      match getSchemaR with
      | Except.error _ => []
      | Except.ok datamodel =>
        match getConfigR datamodel with
        | Except.error _ => []
        | Except.ok config =>
          match config.generators.find? (fun g => decide (g.previewFeatures.length > 0)) with
          | some generator => generator.previewFeatures
          | none => []

/-- Split a character list at every occurrence of a separator, keeping empty
segments, with the semantics of the JavaScript `split` on a one-character
separator (the empty input yields one empty segment). -/
def splitOnChar (sep : Char) : List Char → List (List Char)
  | [] => [[]]
  | c :: cs =>
    if c = sep then [] :: splitOnChar sep cs
    else
      match splitOnChar sep cs with
      | t :: ts => (c :: t) :: ts
      | [] => [[c]]

/-- The `Default Engines Hash` value: the trailing dot-segment of the pinned
`@prisma/engines` dependency version (`split('.').pop()`). -/
def defaultEnginesHash (dep : String) : String :=
  String.mk ((splitOnChar '.' dep.toList).getLastD [])

/-- The private method `Version.printTable`: JSON mode serializes the
slugified-key object, text mode pads each label to the longest label width
and joins with a literal separator, one row per line. -/
def printTable (rows : List (String × String)) (json : Bool) : String :=
  if json then
    jsonStringify2 (toJsonObject rows)
  else
    let maxPad := rows.foldl (fun acc curr => Nat.max acc curr.1.length) 0
    String.intercalate "\n" (rows.map (fun r => padEnd r.1 maxPad ++ " : " ++ r.2))

/-- The fixed row list built by `Version.parse` before the optional
preview-features row (the `rows` array literal of the source). -/
def baseRows (c : ParseCtx)
    (queryEngine migrationEngine introspectionEngine fmtEngine : EngineInfo) :
    List (String × String) := [
  (c.pkgName, c.pkgVersion),
  ("@prisma/client", c.prismaClientVersion.getD "Not found"),
  ("Current platform", c.platform),
  ("Query Engine" ++
     (if c.cliQueryEngineType = EngineType.libqueryEngine then " (Node-API)" else " (Binary)"),
   printEngineInfo c.relative queryEngine),
  ("Migration Engine", printEngineInfo c.relative migrationEngine),
  ("Introspection Engine", printEngineInfo c.relative introspectionEngine),
  ("Format Engine", printEngineInfo c.relative fmtEngine),
  ("Default Engines Hash", defaultEnginesHash c.enginesDep),
  ("Studio", c.studioVersion)]

/-- The report-assembly portion of `Version.parse` (lines 74-106 of the
source): resolve the four engines sequentially, build the fixed row list, and
append the preview-features row when the flag list is non-empty.  Any error
of a resolution or probe propagates and no row list is produced. -/
def parseRows (c : ParseCtx) : Except String (List (String × String)) :=
  match resolveEngine c.toCtx EngineType.introspectionEngine with
  | Except.error e => Except.error e
  | Except.ok introspectionEngine =>
  match resolveEngine c.toCtx EngineType.migrationEngine with
  | Except.error e => Except.error e
  | Except.ok migrationEngine =>
  match resolveEngine c.toCtx c.cliQueryEngineType with
  | Except.error e => Except.error e
  | Except.ok queryEngine =>
  match resolveEngine c.toCtx EngineType.prismaFmt with
  | Except.error e => Except.error e
  | Except.ok fmtEngine =>
    Except.ok
      (if (getFeatureFlags c.schemaPath c.getSchemaR c.getConfigR).length > 0 then
        baseRows c queryEngine migrationEngine introspectionEngine fmtEngine
          ++ [("Preview Features",
               String.intercalate ", " (getFeatureFlags c.schemaPath c.getSchemaR c.getConfigR))]
      else baseRows c queryEngine migrationEngine introspectionEngine fmtEngine)

end Version

/-- JavaScript `s.padStart(n)`: insert spaces before the string up to length
`n`.  Used only to express the specification's reading of the text renderer. -/
def padStart (s : String) (n : Nat) : String :=
  String.mk (List.replicate (n - s.length) ' ') ++ s

/-- Modelled from the spec: the text rendering as the specification's words
describe it, with every label LEFT-padded (padding inserted before the label)
to the width of the longest label, label and value joined by a literal
separator, rows newline-joined.  Kept solely for comparison against the
source's `printTable`. -/
def specTextRender (rows : List (String × String)) : String :=
  let maxPad := rows.foldl (fun acc curr => Nat.max acc curr.1.length) 0
  String.intercalate "\n" (rows.map (fun r => padStart r.1 maxPad ++ " : " ++ r.2))

/-- Width of the longest label of a row set, exactly as the `reduce` in the
text branch of `printTable` computes it. -/
def maxLabelWidth (rows : List (String × String)) : Nat :=
  rows.foldl (fun acc curr => Nat.max acc curr.1.length) 0

/-- Concrete collaborator bundle used to instantiate theorems: one override
variable set to an existing path, a always-succeeding default resolver and
probe. -/
def ctxW : Ctx where
  env := fun v => if v = "PRISMA_QUERY_ENGINE_BINARY" then some "/opt/custom/qe" else none
  fsExists := fun p => p == "/opt/custom/qe"
  envVarMap := fun r =>
    match r with
    | EngineType.queryEngine => "PRISMA_QUERY_ENGINE_BINARY"
    | EngineType.libqueryEngine => "PRISMA_QUERY_ENGINE_LIBRARY"
    | EngineType.migrationEngine => "PRISMA_MIGRATION_ENGINE_BINARY"
    | EngineType.introspectionEngine => "PRISMA_INTROSPECTION_ENGINE_BINARY"
    | EngineType.prismaFmt => "PRISMA_FMT_BINARY"
  resolveBinary := fun _ => Except.ok "/bundle/engine"
  getVersion := fun _ _ => Except.ok "3.1.0"

/-- Variant of `ctxW` in which every engine variable is set to the empty
string. -/
def ctxEmptyW : Ctx :=
  { ctxW with env := fun _ => some "" }

/-- Concrete configuration: a first generator without preview features and a
second declaring two. -/
def cfgW : Config :=
  ⟨[⟨[]⟩, ⟨["flagA", "flagB"]⟩]⟩

/-- Concrete assembly context: no overrides, succeeding resolver and probe,
schema present, configuration `cfgW`. -/
def parseCtxW : ParseCtx where
  toCtx := { ctxW with env := fun _ => none }
  pkgName := "prisma"
  pkgVersion := "2.27.0"
  prismaClientVersion := some "2.27.0"
  platform := "debian-openssl-1.1.x"
  cliQueryEngineType := EngineType.queryEngine
  relative := fun p => p
  enginesDep := "2.27.0-37.abcdef1234"
  studioVersion := "0.420.0"
  schemaPath := some "prisma/schema.prisma"
  getSchemaR := Except.ok "datamodel"
  getConfigR := fun _ => Except.ok cfgW

/-- Variant of `parseCtxW` whose version probe always fails. -/
def parseCtxFailW : ParseCtx :=
  { parseCtxW with toCtx := { parseCtxW.toCtx with getVersion := fun _ _ => Except.error "spawn error" } }

/-- The row list `parseCtxW` assembles. -/
def rowsW : List (String × String) :=
  [("prisma", "2.27.0"),
   ("@prisma/client", "2.27.0"),
   ("Current platform", "debian-openssl-1.1.x"),
   ("Query Engine (Binary)", "3.1.0 (at /bundle/engine)"),
   ("Migration Engine", "3.1.0 (at /bundle/engine)"),
   ("Introspection Engine", "3.1.0 (at /bundle/engine)"),
   ("Format Engine", "3.1.0 (at /bundle/engine)"),
   ("Default Engines Hash", "abcdef1234"),
   ("Studio", "0.420.0"),
   ("Preview Features", "flagA, flagB")]

namespace Version

/-- Helper: a successful fall-through resolution is untagged and carries the
default resolver's path. -/
theorem resolveEngineDefault_spec (c : Ctx) (role : EngineType) (info : EngineInfo)
    (h : resolveEngineDefault c role = Except.ok info) :
    info.fromEnvVar = none ∧ c.resolveBinary role = Except.ok info.path := by
  unfold resolveEngineDefault at h
  split at h
  next e heq => exact absurd h (by simp)
  next enginePath heq =>
    split at h
    next e hv => exact absurd h (by simp)
    next version hv =>
      injection h with h
      subst h
      exact ⟨rfl, heq⟩

/-- C1: for every engine role, `resolveEngine` returns the path named by the
role's mapped environment variable, tagged with that variable's name, exactly
when the variable is set and the path it names exists; otherwise it returns
the external default resolver's path with no override tag.  (The hypothesis
`hfs` records that the empty path never exists on a filesystem, as with
`fs.existsSync('')`.) -/
theorem resolveEngine_override_policy (c : Ctx) (role : EngineType)
    (hfs : c.fsExists "" = false) (info : EngineInfo)
    (h : resolveEngine c role = Except.ok info) :
    (∀ p, c.env (c.envVarMap role) = some p → c.fsExists p = true →
        info.path = p ∧ info.fromEnvVar = some (c.envVarMap role))
    ∧ ((c.env (c.envVarMap role) = none ∨
        (∃ p, c.env (c.envVarMap role) = some p ∧ c.fsExists p = false)) →
        info.fromEnvVar = none ∧ c.resolveBinary role = Except.ok info.path) := by
  unfold resolveEngine at h
  split at h
  next p henv =>
    split at h
    next hcond =>
      simp only [Bool.and_eq_true, bne_iff_ne, ne_eq] at hcond
      split at h
      next e hv => exact absurd h (by simp)
      next version hv =>
        injection h with h
        subst h
        constructor
        · intro q hq _
          rw [henv] at hq
          injection hq with hq
          subst hq
          exact ⟨rfl, rfl⟩
        · intro hcase
          rcases hcase with hnone | ⟨q, hq, hexq⟩
          · rw [henv] at hnone; exact absurd hnone (by simp)
          · rw [henv] at hq
            injection hq with hq
            subst hq
            rw [hexq] at hcond
            exact absurd hcond.2 (by simp)
    next hcond =>
      have hcond' : (p != "" && c.fsExists p) = false := by
        cases hb : (p != "" && c.fsExists p) with
        | false => rfl
        | true => exact absurd hb hcond
      have hdef := resolveEngineDefault_spec c role info h
      refine ⟨?_, fun _ => hdef⟩
      intro q hq hexq
      rw [henv] at hq
      injection hq with hq
      subst hq
      by_cases hq0 : p = ""
      · rw [hq0] at hexq
        rw [hexq] at hfs
        exact absurd hfs (by simp)
      · simp only [Bool.and_eq_false_iff, bne_eq_false_iff_eq] at hcond'
        rcases hcond' with hne | hex
        · exact absurd hne hq0
        · rw [hexq] at hex
          exact absurd hex (by simp)
  next henv =>
    refine ⟨?_, fun _ => resolveEngineDefault_spec c role info h⟩
    intro p hp
    rw [henv] at hp
    exact absurd hp (by simp)

/-- C1 witness: with the query-engine variable pointing to an existing
`/opt/custom/qe`, the resolved info carries that path and the variable's
name. -/
theorem resolveEngine_override_policy_witness :
    EngineInfo.path ⟨"/opt/custom/qe", "3.1.0", some "PRISMA_QUERY_ENGINE_BINARY"⟩ = "/opt/custom/qe"
    ∧ EngineInfo.fromEnvVar ⟨"/opt/custom/qe", "3.1.0", some "PRISMA_QUERY_ENGINE_BINARY"⟩
        = some (ctxW.envVarMap EngineType.queryEngine) :=
  (resolveEngine_override_policy ctxW EngineType.queryEngine rfl
      ⟨"/opt/custom/qe", "3.1.0", some "PRISMA_QUERY_ENGINE_BINARY"⟩ rfl).1
    "/opt/custom/qe" rfl rfl

/-- Helper: an empty-string override value falls through to the default
resolution. -/
theorem resolveEngine_of_envEmpty (c : Ctx) (role : EngineType)
    (h : c.env (c.envVarMap role) = some "") :
    resolveEngine c role = resolveEngineDefault c role := by
  unfold resolveEngine
  rw [h]
  simp

/-- Helper: an unset variable falls through to the default resolution. -/
theorem resolveEngine_of_envNone (c : Ctx) (role : EngineType)
    (h : c.env (c.envVarMap role) = none) :
    resolveEngine c role = resolveEngineDefault c role := by
  unfold resolveEngine
  rw [h]

/-- C10: a role variable set to the empty string is treated exactly like an
unset variable: the resolution coincides with the unset-variable resolution
for every filesystem-existence oracle (so no existence check can influence
it), and a successful result is the default resolver's path, untagged. -/
theorem resolveEngine_emptyOverride (c : Ctx) (role : EngineType)
    (h : c.env (c.envVarMap role) = some "") :
    (∀ fs1 fs2 : String → Bool,
        resolveEngine { c with fsExists := fs1 } role
          = resolveEngine { c with env := fun _ => none, fsExists := fs2 } role)
    ∧ (∀ info, resolveEngine c role = Except.ok info →
        info.fromEnvVar = none ∧ c.resolveBinary role = Except.ok info.path) := by
  constructor
  · intro fs1 fs2
    have h1 : ({ c with fsExists := fs1 } : Ctx).env
        (({ c with fsExists := fs1 } : Ctx).envVarMap role) = some "" := h
    have h2 : ({ c with env := fun _ => none, fsExists := fs2 } : Ctx).env
        (({ c with env := fun _ => none, fsExists := fs2 } : Ctx).envVarMap role) = none := rfl
    rw [resolveEngine_of_envEmpty _ _ h1, resolveEngine_of_envNone _ _ h2]
    rfl
  · intro info hok
    rw [resolveEngine_of_envEmpty c role h] at hok
    exact resolveEngineDefault_spec c role info hok

/-- C10 witness: with every variable set to the empty string the concrete
context resolves to the bundled path with no override tag. -/
theorem resolveEngine_emptyOverride_witness :
    EngineInfo.fromEnvVar ⟨"/bundle/engine", "3.1.0", none⟩ = none
    ∧ ctxEmptyW.resolveBinary EngineType.queryEngine
        = Except.ok (EngineInfo.path ⟨"/bundle/engine", "3.1.0", none⟩) :=
  (resolveEngine_emptyOverride ctxEmptyW EngineType.queryEngine rfl).2
    ⟨"/bundle/engine", "3.1.0", none⟩ rfl

/-- C2: a resolved engine is displayed as the version followed by the
relative path, with a `resolved by` suffix naming the responsible variable
exactly when an override was used. -/
theorem printEngineInfo_format (relative : String → String) (p ver v : String) :
    (v ≠ "" →
      printEngineInfo relative ⟨p, ver, some v⟩
        = ver ++ " (at " ++ relative p ++ ", resolved by " ++ v ++ ")")
    ∧ printEngineInfo relative ⟨p, ver, none⟩ = ver ++ " (at " ++ relative p ++ ")" := by
  constructor
  · intro hv
    simp only [printEngineInfo]
    rw [if_neg hv]
    simp [String.append_assoc]
  · simp [printEngineInfo, String.append_assoc]

/-- C2 witness: the spec's override scenario, rendered. -/
theorem printEngineInfo_format_witness :
    printEngineInfo (fun s => s) ⟨"/opt/custom/qe", "3.1.0", some "PRISMA_QUERY_ENGINE_BINARY"⟩
      = "3.1.0 (at /opt/custom/qe, resolved by PRISMA_QUERY_ENGINE_BINARY)" :=
  ((printEngineInfo_format (fun s => s) "/opt/custom/qe" "3.1.0" "PRISMA_QUERY_ENGINE_BINARY").1
    (by decide)).trans (by decide)

/-- C6: the feature-flag reader is total and degrades every failure to the
empty list: a missing (or falsy) schema path, a schema-load error, and a
config-parse error all yield `[]` rather than an error. -/
theorem getFeatureFlags_neverRaises (gs : Except String String)
    (gc : String → Except String Config) :
    getFeatureFlags none gs gc = []
    ∧ getFeatureFlags (some "") gs gc = []
    ∧ (∀ sp e, gs = Except.error e → getFeatureFlags (some sp) gs gc = [])
    ∧ (∀ sp dm e, gs = Except.ok dm → gc dm = Except.error e →
        getFeatureFlags (some sp) gs gc = []) := by
  refine ⟨rfl, rfl, ?_, ?_⟩
  · intro sp e hgs
    simp only [getFeatureFlags, hgs]
    split <;> rfl
  · intro sp dm e hgs hgc
    simp only [getFeatureFlags, hgs, hgc]
    split <;> rfl

/-- C6 witness: concrete failing collaborators still yield the empty list. -/
theorem getFeatureFlags_neverRaises_witness :
    getFeatureFlags none (Except.error "boom") (fun _ => Except.error "bad") = []
    ∧ getFeatureFlags (some "prisma/schema.prisma") (Except.error "boom")
        (fun _ => Except.error "bad") = [] :=
  ⟨(getFeatureFlags_neverRaises (Except.error "boom") (fun _ => Except.error "bad")).1,
   (getFeatureFlags_neverRaises (Except.error "boom") (fun _ => Except.error "bad")).2.2.1
     "prisma/schema.prisma" "boom" rfl⟩

/-- C7: with a loaded configuration the reader returns the preview features
of the first generator in declaration order whose list is non-empty, and the
empty list when every generator declares an empty list. -/
theorem getFeatureFlags_firstNonempty (sp dm : String) (cfg : Config)
    (gs : Except String String) (gc : String → Except String Config)
    (hsp : sp ≠ "") (hgs : gs = Except.ok dm) (hgc : gc dm = Except.ok cfg) :
    (∀ l₁ g l₂, cfg.generators = l₁ ++ g :: l₂ →
        (∀ g0 ∈ l₁, g0.previewFeatures = []) → g.previewFeatures ≠ [] →
        getFeatureFlags (some sp) gs gc = g.previewFeatures)
    ∧ ((∀ g ∈ cfg.generators, g.previewFeatures = []) →
        getFeatureFlags (some sp) gs gc = []) := by
  have hbase : getFeatureFlags (some sp) gs gc
      = (match cfg.generators.find? (fun g => decide (g.previewFeatures.length > 0)) with
         | some generator => generator.previewFeatures
         | none => []) := by
    simp only [getFeatureFlags, hgs, hgc]
    rw [if_neg hsp]
  constructor
  · intro l₁ g l₂ hsplit h1 h2
    rw [hbase, hsplit, List.find?_append]
    have hl1 : l₁.find? (fun g => decide (g.previewFeatures.length > 0)) = none := by
      rw [List.find?_eq_none]
      intro x hx
      simp [h1 x hx]
    have hg : (g :: l₂).find? (fun g => decide (g.previewFeatures.length > 0)) = some g := by
      apply List.find?_cons_of_pos
      simp only [decide_eq_true_eq, List.length_pos]
      exact h2
    rw [hl1, hg]
    rfl
  · intro hall
    rw [hbase]
    have hnone : cfg.generators.find? (fun g => decide (g.previewFeatures.length > 0)) = none := by
      rw [List.find?_eq_none]
      intro x hx
      simp [hall x hx]
    rw [hnone]

/-- C7 witness: with a first flagless generator and a second declaring two
flags, the reader returns exactly the second generator's list. -/
theorem getFeatureFlags_firstNonempty_witness :
    getFeatureFlags (some "prisma/schema.prisma") (Except.ok "datamodel")
      (fun _ => Except.ok cfgW) = ["flagA", "flagB"] :=
  (getFeatureFlags_firstNonempty "prisma/schema.prisma" "datamodel" cfgW
      (Except.ok "datamodel") (fun _ => Except.ok cfgW)
      (by decide) rfl rfl).1 [⟨[]⟩] ⟨["flagA", "flagB"]⟩ [] (by decide)
    (by decide) (by decide)

/-- Helper: the fold's accumulator never decreases. -/
theorem foldl_max_init (rows : List (String × String)) (a : Nat) :
    a ≤ rows.foldl (fun acc curr => Nat.max acc curr.1.length) a := by
  induction rows generalizing a with
  | nil => exact Nat.le_refl a
  | cons hd tl ih => exact Nat.le_trans (Nat.le_max_left a hd.1.length) (ih (Nat.max a hd.1.length))

/-- Helper: every label's length is bounded by the folded maximum. -/
theorem label_le_foldl_max (rows : List (String × String)) :
    ∀ (a : Nat), ∀ r ∈ rows, r.1.length ≤ rows.foldl (fun acc curr => Nat.max acc curr.1.length) a := by
  induction rows with
  | nil => intro a r hr; cases hr
  | cons hd tl ih =>
    intro a r hr
    rcases List.mem_cons.mp hr with h | h
    · subst h
      exact Nat.le_trans (Nat.le_max_right a r.1.length) (foldl_max_init tl (Nat.max a r.1.length))
    · exact ih (Nat.max a hd.1.length) r h

/-- C4 counterexample: at a concrete two-row set the text renderer does not
produce the left-padded (start-padded) rendering the claim describes; the
shorter label is padded after the label, not before it. -/
theorem printTable_text_not_leftPadded :
    printTable [("A", "x"), ("BB", "y")] false
      ≠ specTextRender [("A", "x"), ("BB", "y")] := by
  decide

/-- C4 (amended): in text mode the renderer RIGHT-pads every row's label
(appends spaces after the label, left-aligning it) to the width of the
longest label in the row set, joins each padded label and value with the
literal separator, and joins the rows with newlines; each padded label has
exactly the width of the longest label. -/
theorem printTable_text_format (rows : List (String × String)) :
    printTable rows false
      = String.intercalate "\n"
          (rows.map (fun r => padEnd r.1 (maxLabelWidth rows) ++ " : " ++ r.2))
    ∧ ∀ r ∈ rows, (padEnd r.1 (maxLabelWidth rows)).length = maxLabelWidth rows := by
  constructor
  · rfl
  · intro r hr
    have hle : r.1.length ≤ maxLabelWidth rows := label_le_foldl_max rows 0 r hr
    unfold padEnd
    rw [String.length_append]
    have hmk : (String.mk (List.replicate (maxLabelWidth rows - r.1.length) ' ')).length
        = maxLabelWidth rows - r.1.length := by
      rw [String.length_mk, List.length_replicate]
    rw [hmk]
    omega

/-- C4 witness: the amended statement evaluated on the concrete two-row
set. -/
theorem printTable_text_format_witness :
    printTable [("A", "x"), ("BB", "y")] false
      = String.intercalate "\n"
          ([("A", "x"), ("BB", "y")].map
            (fun r => padEnd r.1 (maxLabelWidth [("A", "x"), ("BB", "y")]) ++ " : " ++ r.2))
    ∧ (padEnd "A" (maxLabelWidth [("A", "x"), ("BB", "y")])).length
        = maxLabelWidth [("A", "x"), ("BB", "y")] :=
  ⟨(printTable_text_format [("A", "x"), ("BB", "y")]).1,
   (printTable_text_format [("A", "x"), ("BB", "y")]).2 ("A", "x") (by decide)⟩

/-- Helper: looking a key up after the in-place overwrite a JavaScript
assignment performs on an already-present key. -/
theorem lookup_map_set (k k2 v : String) (acc : List (String × String)) :
    (acc.map (fun p => if p.1 == k2 then (k2, v) else p)).lookup k
      = if k = k2 then (if acc.any (fun p => p.1 == k2) then some v else none)
      else acc.lookup k := by
  induction acc with
  | nil => simp
  | cons hd tl ih =>
    obtain ⟨a, b⟩ := hd
    simp at ih
    by_cases hak : a = k2
    · subst hak
      by_cases hkk : k = a
      · subst hkk
        simp [List.lookup_cons]
      · have hb : (k == a) = false := beq_eq_false_iff_ne.mpr hkk
        simp [List.lookup_cons, hb, hkk, ih]
    · by_cases hkk : k = a
      · subst hkk
        have hb : (k == k2) = false := beq_eq_false_iff_ne.mpr hak
        simp [List.lookup_cons, hak, hb]
      · have hka : (k == a) = false := beq_eq_false_iff_ne.mpr hkk
        have hab : (a == k2) = false := beq_eq_false_iff_ne.mpr hak
        by_cases hk2 : k = k2
        · subst hk2
          simp [List.lookup_cons, hka, ih, hak]
          rw [hab, Bool.false_or]
        · simp [List.lookup_cons, hka, hab, ih, hk2, hak]

/-- Helper: a key absent from every entry looks up to `none`. -/
theorem lookup_eq_none_of_any_false (acc : List (String × String)) (k2 : String)
    (h : acc.any (fun p => p.1 == k2) = false) : acc.lookup k2 = none := by
  induction acc with
  | nil => rfl
  | cons hd tl ih =>
    obtain ⟨a, b⟩ := hd
    simp only [List.any_cons, Bool.or_eq_false_iff] at h
    have hne : a ≠ k2 := beq_eq_false_iff_ne.mp h.1
    have hb : (k2 == a) = false := beq_eq_false_iff_ne.mpr (Ne.symm hne)
    simp [List.lookup_cons, hb, ih h.2]

/-- Helper: lookup across an appended singleton entry. -/
theorem lookup_append_single (acc : List (String × String)) (k k2 v : String) :
    (acc ++ [(k2, v)]).lookup k
      = (match acc.lookup k with
         | some w => some w
         | none => if k = k2 then some v else none) := by
  induction acc with
  | nil =>
    by_cases hk : k = k2
    · have hb : (k == k2) = true := beq_iff_eq.mpr hk
      simp [List.lookup_cons, hb, hk]
    · have hb : (k == k2) = false := beq_eq_false_iff_ne.mpr hk
      simp [List.lookup_cons, hb, hk]
  | cons hd tl ih =>
    obtain ⟨a, b⟩ := hd
    by_cases hka : k = a
    · have hb : (k == a) = true := beq_iff_eq.mpr hka
      simp [List.lookup_cons, hb]
    · have hb : (k == a) = false := beq_eq_false_iff_ne.mpr hka
      simp [List.lookup_cons, hb, ih]

/-- Helper: the JavaScript assignment `acc[k2] = v` makes `k2` look up to
the new value and leaves every other key's lookup unchanged. -/
theorem jsSet_lookup (acc : List (String × String)) (k k2 v : String) :
    (jsSet acc k2 v).lookup k = if k = k2 then some v else acc.lookup k := by
  unfold jsSet
  cases hany : acc.any (fun p => p.1 == k2) with
  | true =>
    simp only [hany, if_true]
    rw [lookup_map_set k k2 v acc, hany]
    simp
  | false =>
    simp only [hany, Bool.false_eq_true, if_false]
    rw [lookup_append_single]
    by_cases hk : k = k2
    · subst hk
      rw [lookup_eq_none_of_any_false acc k hany]
    · cases hl : acc.lookup k <;> simp [hl, hk]

/-- Helper: the object accumulated by the JSON `reduce`, looked up at any
key, yields the value of the last row whose slugified label is that key. -/
theorem toJsonObject_go (k : String) (rows : List (String × String)) :
    ∀ acc : List (String × String),
      (rows.foldl (fun acc r => jsSet acc (slugify r.1) r.2) acc).lookup k
        = ((rows.reverse.find? (fun r => slugify r.1 == k)).map Prod.snd).or (acc.lookup k) := by
  induction rows with
  | nil => intro acc; simp
  | cons r tl ih =>
    intro acc
    simp only [List.foldl_cons, List.reverse_cons, List.find?_append]
    rw [ih]
    cases hf : tl.reverse.find? (fun r => slugify r.1 == k) with
    | some w => simp [hf]
    | none =>
      by_cases hk : k = slugify r.1
      · simp [hf, hk, jsSet_lookup]
      · simp [hf, hk, jsSet_lookup, Ne.symm hk]

/-- Helper: closed form of the lookup into the JSON-mode object. -/
theorem toJsonObject_lookup (rows : List (String × String)) (k : String) :
    (toJsonObject rows).lookup k
      = (rows.reverse.find? (fun r => slugify r.1 == k)).map Prod.snd := by
  unfold toJsonObject
  rw [toJsonObject_go k rows []]
  simp

/-- C5: in JSON mode the renderer serializes the object whose keys are the
slugified labels (lowercased, whitespace runs collapsed to one hyphen) and
whose value at any key is the unchanged value string of the LAST row whose
label slugifies to that key (rows with colliding slugs silently overwrite
earlier ones); the spec's two-row scenario evaluates accordingly. -/
theorem printTable_json_object (rows : List (String × String)) (k : String) :
    printTable rows true = jsonStringify2 (toJsonObject rows)
    ∧ (toJsonObject rows).lookup k
        = (rows.reverse.find? (fun r => slugify r.1 == k)).map Prod.snd
    ∧ printTable [("Tool", "1.2.3"), ("Query Engine (Binary)", "4.0.0 (at ./qe)")] true
        = "\x7b\n  \"tool\": \"1.2.3\",\n  \"query-engine-(binary)\": \"4.0.0 (at ./qe)\"\n\x7d" :=
  ⟨rfl, toJsonObject_lookup rows k, by decide⟩

/-- Helper: a probe that fails at every path makes the fall-through
resolution fail. -/
theorem resolveEngineDefault_error_of_probe (c : Ctx) (r : EngineType) (e : String)
    (hprobe : ∀ p, c.getVersion p r = Except.error e) :
    ∃ e2, resolveEngineDefault c r = Except.error e2 := by
  cases hrb : c.resolveBinary r with
  | error e2 => exact ⟨e2, by unfold resolveEngineDefault; simp only [hrb]⟩
  | ok p => exact ⟨e, by unfold resolveEngineDefault; simp only [hrb, hprobe p]⟩

/-- Helper: a probe that fails at every path makes the whole resolution of
that role fail, whichever branch is taken. -/
theorem resolveEngine_error_of_probe (c : Ctx) (r : EngineType) (e : String)
    (hprobe : ∀ p, c.getVersion p r = Except.error e) :
    ∃ e2, resolveEngine c r = Except.error e2 := by
  unfold resolveEngine
  cases henv : c.env (c.envVarMap r) with
  | none =>
    simp only [henv]
    exact resolveEngineDefault_error_of_probe c r e hprobe
  | some p =>
    simp only [henv]
    cases hcond : (p != "" && c.fsExists p) with
    | true =>
      simp only [hcond, if_true]
      exact ⟨e, by simp only [hprobe p]⟩
    | false =>
      simp only [hcond, Bool.false_eq_true, if_false]
      exact resolveEngineDefault_error_of_probe c r e hprobe

/-- C3: if probing one of the four assembled engine roles fails at every
path, the whole row assembly returns an error: no partial row list with the
other engines is produced. -/
theorem parseRows_abortsOnProbeFailure (c : ParseCtx) (r : EngineType) (e : String)
    (hr : r ∈ [EngineType.introspectionEngine, EngineType.migrationEngine,
               c.cliQueryEngineType, EngineType.prismaFmt])
    (hprobe : ∀ p, c.getVersion p r = Except.error e) :
    ∃ e2, parseRows c = Except.error e2 := by
  obtain ⟨e2, he2⟩ := resolveEngine_error_of_probe c.toCtx r e hprobe
  unfold parseRows
  cases h1 : resolveEngine c.toCtx EngineType.introspectionEngine with
  | error e3 => exact ⟨e3, by simp only [h1]⟩
  | ok i1 =>
    cases h2 : resolveEngine c.toCtx EngineType.migrationEngine with
    | error e3 => exact ⟨e3, by simp only [h1, h2]⟩
    | ok i2 =>
      cases h3 : resolveEngine c.toCtx c.cliQueryEngineType with
      | error e3 => exact ⟨e3, by simp only [h1, h2, h3]⟩
      | ok i3 =>
        cases h4 : resolveEngine c.toCtx EngineType.prismaFmt with
        | error e3 => exact ⟨e3, by simp only [h1, h2, h3, h4]⟩
        | ok i4 =>
          exfalso
          simp only [List.mem_cons, List.not_mem_nil, or_false] at hr
          rcases hr with h | h | h | h
          · subst h; rw [h1] at he2; exact absurd he2 (by simp)
          · subst h; rw [h2] at he2; exact absurd he2 (by simp)
          · subst h; rw [h3] at he2; exact absurd he2 (by simp)
          · subst h; rw [h4] at he2; exact absurd he2 (by simp)

/-- C3 witness: with an always-failing probe the concrete assembly returns an
error and no rows. -/
theorem parseRows_abortsOnProbeFailure_witness :
    ∃ e2, parseRows parseCtxFailW = Except.error e2 :=
  parseRows_abortsOnProbeFailure parseCtxFailW EngineType.introspectionEngine "spawn error"
    (by simp) (fun _ => rfl)

/-- C9: a successful assembly's row labels are exactly the fixed ordered
list — package identity and client/platform rows first, the four engine rows
next (query, migration, introspection, format), then the dependency metadata
rows, then the preview-features row last exactly when the flag list is
non-empty; the order depends on nothing else, so identical inputs cannot
yield another order. -/
theorem parseRows_rowOrder (c : ParseCtx) (rows : List (String × String))
    (h : parseRows c = Except.ok rows) :
    rows.map Prod.fst
      = ([c.pkgName, "@prisma/client", "Current platform",
          "Query Engine" ++
            (if c.cliQueryEngineType = EngineType.libqueryEngine then " (Node-API)" else " (Binary)"),
          "Migration Engine", "Introspection Engine", "Format Engine",
          "Default Engines Hash", "Studio"]
         ++ (if (getFeatureFlags c.schemaPath c.getSchemaR c.getConfigR).length > 0
             then ["Preview Features"] else [])) := by
  unfold parseRows at h
  split at h
  next e h1 => exact absurd h (by simp)
  next i1 h1 =>
  split at h
  next e h2 => exact absurd h (by simp)
  next i2 h2 =>
  split at h
  next e h3 => exact absurd h (by simp)
  next i3 h3 =>
  split at h
  next e h4 => exact absurd h (by simp)
  next i4 h4 =>
  injection h with h
  subst h
  by_cases hflag : (getFeatureFlags c.schemaPath c.getSchemaR c.getConfigR).length > 0
  · simp [hflag, baseRows]
  · simp [hflag, baseRows]

/-- C9 witness: the concrete assembly of `parseCtxW` carries exactly the
expected ordered labels. -/
theorem parseRows_rowOrder_witness :
    rowsW.map Prod.fst
      = ([parseCtxW.pkgName, "@prisma/client", "Current platform",
          "Query Engine" ++
            (if parseCtxW.cliQueryEngineType = EngineType.libqueryEngine
             then " (Node-API)" else " (Binary)"),
          "Migration Engine", "Introspection Engine", "Format Engine",
          "Default Engines Hash", "Studio"]
         ++ (if (getFeatureFlags parseCtxW.schemaPath parseCtxW.getSchemaR
                   parseCtxW.getConfigR).length > 0
             then ["Preview Features"] else [])) :=
  parseRows_rowOrder parseCtxW rowsW rfl

/-- C8: under a loaded configuration, a successful assembly contains the
`Preview Features` row exactly when some generator declares a non-empty
preview-feature list, and the row's value — looked up by label — is the
comma-joined flag list of the first such generator, `none` (row entirely
absent) otherwise. -/
theorem parseRows_featureFlagsRow (c : ParseCtx) (sp dm : String) (cfg : Config)
    (rows : List (String × String))
    (hsp : c.schemaPath = some sp) (hspne : sp ≠ "")
    (hgs : c.getSchemaR = Except.ok dm) (hgc : c.getConfigR dm = Except.ok cfg)
    (hpk : c.pkgName ≠ "Preview Features")
    (h : parseRows c = Except.ok rows) :
    (("Preview Features" ∈ rows.map Prod.fst) ↔ ∃ g ∈ cfg.generators, g.previewFeatures ≠ [])
    ∧ rows.lookup "Preview Features"
        = (cfg.generators.find? (fun g => decide (g.previewFeatures.length > 0))).map
            (fun g => String.intercalate ", " g.previewFeatures) := by
  have hflags : getFeatureFlags c.schemaPath c.getSchemaR c.getConfigR
      = (match cfg.generators.find? (fun g => decide (g.previewFeatures.length > 0)) with
         | some generator => generator.previewFeatures
         | none => []) := by
    rw [hsp]
    simp only [getFeatureFlags, hgs, hgc]
    rw [if_neg hspne]
  unfold parseRows at h
  split at h
  next e h1 => exact absurd h (by simp)
  next i1 h1 =>
  split at h
  next e h2 => exact absurd h (by simp)
  next i2 h2 =>
  split at h
  next e h3 => exact absurd h (by simp)
  next i3 h3 =>
  split at h
  next e h4 => exact absurd h (by simp)
  next i4 h4 =>
  injection h with h
  subst h
  have hpkb : ("Preview Features" == c.pkgName) = false :=
    beq_eq_false_iff_ne.mpr (Ne.symm hpk)
  have hbase : (baseRows c i3 i2 i1 i4).lookup "Preview Features" = none := by
    by_cases hq : c.cliQueryEngineType = EngineType.libqueryEngine <;>
      simp [baseRows, List.lookup_cons, hpkb, hq]
  have hbasemem : "Preview Features" ∉ (baseRows c i3 i2 i1 i4).map Prod.fst := by
    by_cases hq : c.cliQueryEngineType = EngineType.libqueryEngine <;>
      simp [baseRows, hq, Ne.symm hpk]
  cases hf : cfg.generators.find? (fun g => decide (g.previewFeatures.length > 0)) with
  | some g =>
    have hmemg : g ∈ cfg.generators := List.mem_of_find?_eq_some hf
    have hgpos : g.previewFeatures.length > 0 := by
      have := List.find?_some hf
      simpa using this
    have hfl : getFeatureFlags c.schemaPath c.getSchemaR c.getConfigR = g.previewFeatures := by
      rw [hflags, hf]
    rw [hfl] at *
    simp only [if_pos hgpos]
    constructor
    · constructor
      · intro _
        exact ⟨g, hmemg, by simpa [List.length_pos] using hgpos⟩
      · intro _
        simp
    · rw [lookup_append_single, hbase]
      simp
  | none =>
    have hfl : getFeatureFlags c.schemaPath c.getSchemaR c.getConfigR = [] := by
      rw [hflags, hf]
    rw [hfl] at *
    simp only [List.length_nil, gt_iff_lt, Nat.lt_irrefl, if_false]
    constructor
    · constructor
      · intro hmem
        exact absurd hmem hbasemem
      · intro hex
        obtain ⟨g, hg, hgne⟩ := hex
        have := List.find?_eq_none.mp hf g hg
        simp [List.length_pos] at this
        exact absurd this hgne
    · simp [hbase]

/-- C8 witness: the concrete assembly contains the `Preview Features` row
because `cfgW`'s second generator declares flags. -/
theorem parseRows_featureFlagsRow_witness :
    "Preview Features" ∈ rowsW.map Prod.fst :=
  (parseRows_featureFlagsRow parseCtxW "prisma/schema.prisma" "datamodel" cfgW rowsW
      rfl (by decide) rfl rfl (by decide) rfl).1.mpr
    ⟨⟨["flagA", "flagB"]⟩, by simp [cfgW], by simp⟩

end Version
